import Mathlib

/-!
Verification development for the Moon Read catalog bot (`src/bot.py`).

The embedding models the data layer and query engine of the bot:

* `Book` models one CSV row (`title`, `link` columns) of the catalog.
* `search_results` models the filter on line 259 of `bot.py`
  (`[book for book in BOOKS if keyword in book['title'].lower()]`),
  with the keyword built on line 258 (`' '.join(context.args).lower()`).
* Python's substring test `needle in hay` on strings is modelled by
  `strContains` over the strings' character lists; Python's `str.lower`
  by a character-wise `Char.toLower` map (faithful on the ASCII range).
* A Python `IndexError` (e.g. `title[0]` on an empty title) is modelled
  by `Option`: `none` is the raised exception.
* Python dicts (`books_by_letter`, `letter_counts`, `TELEGRAPH_LINKS`)
  are association lists in key-insertion order.
* The external publish call `telegraph.create_page` is modelled by an
  oracle `publish : Char → Option String` giving, per letter, the page
  path on success or `none` when the call raises.
-/

/-- One catalog record: a row of `titles_and_links_alphabetical.csv`
with columns `title` and `link` (`load_catalog`, lines 36-48). -/
structure Book where
  title : String
  link : String
deriving DecidableEq, Repr

/-- Character-wise lower-casing, the model of Python's `str.lower()`
applied to a string's character list. -/
def pyLower (cs : List Char) : List Char :=
  cs.map Char.toLower

/-- Model of Python's substring test `needle in hay` for strings:
true iff `needle` occurs contiguously inside `hay`. -/
def strContains (hay needle : List Char) : Bool :=
  match hay with
  | [] => needle.isEmpty
  | _ :: t => needle.isPrefixOf hay || strContains t needle

/-- Propositional form of contiguous-substring containment. -/
def IsSubstr (needle hay : List Char) : Prop :=
  ∃ s t, hay = s ++ (needle ++ t)

/-- The matching test of `search_command` line 259:
`keyword in book['title'].lower()`, the keyword being already
lower-cased by line 258. -/
def titleMatches (keyword : List Char) (b : Book) : Bool :=
  strContains (pyLower b.title.data) keyword

/-- The search filter of `search_command` lines 258-259, at the query-engine
level: lower-case the keyword, keep the records whose lower-cased title
contains it. -/
def search_results (books : List Book) (keyword : String) : List Book :=
  books.filter (titleMatches (pyLower keyword.data))

/-- Model of Python's `' '.join(args)`. -/
def joinWords (args : List String) : String :=
  String.intercalate " " args

/-- The `/search` command handler (`search_command`, lines 244-259):
with no arguments the request is rejected (`none`, lines 248-256);
otherwise the arguments are joined with single spaces, lower-cased
(line 258) and used as one search keyword (line 259). -/
def search_command (args : List String) (books : List Book) : Option (List Book) :=
  if args.isEmpty then none
  else some (search_results books (joinWords args))

/-- The letter-bucket computation shared by `generate_telegraph_pages`
(lines 62-64) and `stats_command` (lines 385-386):
`title[0].upper()` if alphabetic, else the sentinel bucket `'#'`.
Indexing `title[0]` on an empty title raises `IndexError` in Python,
modelled here by `none`. -/
def bucketOfTitle (title : String) : Option Char :=
  match title.data with
  | [] => none
  | c :: _ => some (if (c.toUpper).isAlpha then c.toUpper else '#')

/-- Bucket of a record, computed from its title. -/
def bucketOf (b : Book) : Option Char :=
  bucketOfTitle b.title

/-- Model of incrementing a Python dict-of-counts entry
(`letter_counts[letter] = letter_counts.get(letter, 0) + 1`, line 387):
the dict is an association list in key-insertion order. -/
def incKey : List (Char × Nat) → Char → List (Char × Nat)
  | [], c => [(c, 1)]
  | (k, v) :: rest, c =>
    if k = c then (k, v + 1) :: rest else (k, v) :: incKey rest c

/-- The histogram loop of `stats_command` lines 383-387, folding over the
catalog in order; `none` models the `IndexError` raised on an empty title. -/
def letterCountsAux (acc : List (Char × Nat)) : List Book → Option (List (Char × Nat))
  | [] => some acc
  | b :: rest =>
    match bucketOf b with
    | none => none
    | some c => letterCountsAux (incKey acc c) rest

/-- The bucket histogram of `stats_command` (lines 383-387). -/
def letter_counts (books : List Book) : Option (List (Char × Nat)) :=
  letterCountsAux [] books

/-- Model of Python's `sorted` on characters: ascending code-point order
(stable; the key lists it is applied to here have distinct elements). -/
def pySorted (l : List Char) : List Char :=
  List.insertionSort (· ≤ ·) l

/-- The display order of the `stats_command` histogram, line 394:
`for letter in sorted(letter_counts.keys())`. -/
def statsKeys (books : List Book) : Option (List Char) :=
  (letter_counts books).map (fun m => pySorted (m.map Prod.fst))

/-- Appending one book to its bucket's group, the model of lines 66-68 of
`generate_telegraph_pages` (`books_by_letter` is a dict in key-insertion
order; a new key is appended at the end). -/
def addBookToGroups : List (Char × List Book) → Char → Book → List (Char × List Book)
  | [], c, b => [(c, [b])]
  | (k, bs) :: rest, c, b =>
    if k = c then (k, bs ++ [b]) :: rest
    else (k, bs) :: addBookToGroups rest c b

/-- The grouping loop of `generate_telegraph_pages` lines 61-68; `none`
models the `IndexError` raised by `book['title'][0]` on an empty title,
which escapes to the outer handler of the build. -/
def groupByLetter (acc : List (Char × List Book)) : List Book → Option (List (Char × List Book))
  | [] => some acc
  | b :: rest =>
    match bucketOf b with
    | none => none
    | some c => groupByLetter (addBookToGroups acc c b) rest

/-- The letter ordering of `generate_telegraph_pages` line 71 and
`catalog_command` line 336: the non-`'#'` keys sorted ascending, then
`'#'` appended last when present. -/
def sortedLettersOf (keys : List Char) : List Char :=
  pySorted (keys.filter (fun c => c ≠ '#')) ++ (if '#' ∈ keys then ['#'] else [])

/-- One entry of `TELEGRAPH_LINKS` (lines 96-99): the page url and the
number of books in the bucket. -/
structure PageEntry where
  url : String
  count : Nat
deriving DecidableEq, Repr

/-- The url recorded on line 97: `https://telegra.ph/` followed by the
path returned by the publish call. -/
def telegraphUrl (path : String) : String :=
  "https://telegra.ph/" ++ path

/-- Observable state of the publish loop of `generate_telegraph_pages`:
the `TELEGRAPH_LINKS` entries in insertion order, the letters for which a
publish call was issued (in order), and the number of `time.sleep(10)`
suspensions executed. -/
structure LoopState where
  links : List (Char × PageEntry)
  attempts : List Char
  delays : Nat
deriving DecidableEq, Repr

/-- The publish loop of `generate_telegraph_pages` lines 74-109:
`i` is the running `enumerate` index and `n` is `len(sorted_letters)`.
Each letter gets one `telegraph.create_page` attempt.  On success the
entry is recorded and, if the letter is not the last (`i < n - 1`),
the builder sleeps; the sleep sits inside the `try`, so a failed attempt
records nothing and sleeps nothing, and the loop continues either way. -/
def publishLoopAux (publish : Char → Option String) (groups : List (Char × List Book))
    (n : Nat) : Nat → List Char → LoopState → LoopState
  | _, [], st => st
  | i, c :: rest, st =>
    let st1 : LoopState := ⟨st.links, st.attempts ++ [c], st.delays⟩
    match publish c with
    | some path =>
      let cnt := ((groups.lookup c).getD []).length
      let st2 : LoopState := ⟨st1.links ++ [(c, ⟨telegraphUrl path, cnt⟩)], st1.attempts, st1.delays⟩
      let st3 : LoopState := if i < n - 1 then ⟨st2.links, st2.attempts, st2.delays + 1⟩ else st2
      publishLoopAux publish groups n (i + 1) rest st3
    | none =>
      publishLoopAux publish groups n (i + 1) rest st1

/-- Specification-side count of the sleeps the loop executes from index `i`
over the remaining letters: one per successful publish at an index below
`n - 1`. -/
def countDelays (publish : Char → Option String) (n : Nat) : Nat → List Char → Nat
  | _, [] => 0
  | i, c :: rest =>
    (if (publish c).isSome ∧ i < n - 1 then 1 else 0) + countDelays publish n (i + 1) rest

/-- The whole build step `generate_telegraph_pages` (lines 51-116):
group the catalog by letter (an empty title raises there, caught only by
the outer handler, which logs and returns `False` with nothing published),
order the letters, run the publish loop, and return `True` once the loop
finishes — regardless of how many publish attempts succeeded. -/
def generate_telegraph_pages (publish : Char → Option String) (books : List Book) :
    Bool × LoopState :=
  match groupByLetter [] books with
  | none => (false, ⟨[], [], 0⟩)
  | some groups =>
    let letters := sortedLettersOf (groups.map Prod.fst)
    (true, publishLoopAux publish groups letters.length 0 letters ⟨[], [], 0⟩)

/-- The rendered shape of a search reply (lines 269-284): the listed items,
the reported total match count (line 272 reports `len(results)`), and
whether a truncation notice is shown (lines 273-274 and 282-284, shown
exactly when more than 20 results matched). -/
structure SearchRender where
  items : List Book
  totalMatched : Nat
  truncated : Bool
deriving DecidableEq, Repr

/-- The pagination of `search_command` lines 269-284:
`limited_results = results[:20]`, the full count is reported, and the
truncation notice appears iff `len(results) > 20`. -/
def paginate_search (results : List Book) : SearchRender :=
  ⟨results.take 20, results.length, decide (results.length > 20)⟩

/-- The `/random` command handler (`random_book`, lines 298-306): on an
empty catalog the request fails (`none`, lines 302-304); otherwise
`random.choice(BOOKS)` picks an element at a uniformly drawn valid index,
modelled by reducing an arbitrary draw `r` modulo the catalog length. -/
def random_book (books : List Book) (r : Nat) : Option Book :=
  if books.isEmpty then none
  else books[r % books.length]?

/-- Result of the `/catalog` command: either the not-ready notice
(lines 327-332) or the keyboard of per-letter entries. -/
inductive CatalogResult where
  | notReady : CatalogResult
  | keyboard : List (Char × PageEntry) → CatalogResult
deriving DecidableEq, Repr

/-- The `/catalog` command handler (`catalog_command`, lines 323-348):
if `TELEGRAPH_LINKS` is empty, reply "not ready"; otherwise list one
button per letter, non-`'#'` letters sorted ascending then `'#'` last
(line 336), each carrying that letter's `{url, count}` entry
(lines 340-343; the 6-per-row layout is presentation only and is not
modelled). -/
def catalog_command (links : List (Char × PageEntry)) : CatalogResult :=
  if links.isEmpty then CatalogResult.notReady
  else
    CatalogResult.keyboard
      ((sortedLettersOf (links.map Prod.fst)).filterMap
        (fun c => (links.lookup c).map (fun e => (c, e))))

/-- Display order required of catalog buttons: `'#'` comes after every
other letter, the rest ascending. -/
def bucketLe (a b : Char) : Prop :=
  b = '#' ∨ (a ≠ '#' ∧ a ≤ b)

theorem isPrefixOf_eq_true_iff (l₁ l₂ : List Char) :
    l₁.isPrefixOf l₂ = true ↔ ∃ t, l₂ = l₁ ++ t := by
  induction l₁ generalizing l₂ with
  | nil => simp [List.isPrefixOf]
  | cons a as ih =>
    cases l₂ with
    | nil => simp [List.isPrefixOf]
    | cons b bs =>
      simp only [List.isPrefixOf, Bool.and_eq_true, beq_iff_eq, ih, List.cons_append,
        List.cons.injEq]
      constructor
      · rintro ⟨rfl, t, rfl⟩
        exact ⟨t, rfl, rfl⟩
      · rintro ⟨t, rfl, rfl⟩
        exact ⟨rfl, t, rfl⟩

theorem strContains_iff (hay needle : List Char) :
    strContains hay needle = true ↔ IsSubstr needle hay := by
  induction hay with
  | nil =>
    simp only [strContains, List.isEmpty_iff, IsSubstr]
    constructor
    · rintro rfl
      exact ⟨[], [], rfl⟩
    · rintro ⟨s, t, h⟩
      have hl := congrArg List.length h
      simp only [List.length_nil, List.length_append] at hl
      exact List.eq_nil_of_length_eq_zero (by omega)
  | cons a t ih =>
    simp only [strContains, Bool.or_eq_true, isPrefixOf_eq_true_iff, ih, IsSubstr]
    constructor
    · rintro (⟨u, h⟩ | ⟨s, u, h⟩)
      · exact ⟨[], u, by simpa using h⟩
      · exact ⟨a :: s, u, by simp [h]⟩
    · rintro ⟨s, u, h⟩
      cases s with
      | nil => exact Or.inl ⟨u, by simpa using h⟩
      | cons b s' =>
        simp only [List.cons_append, List.cons.injEq] at h
        exact Or.inr ⟨s', u, h.2⟩

/-- C1. `search(k)` returns exactly the subsequence of the catalog whose
lower-cased title contains the lower-cased keyword `k` as a contiguous
substring: the result is a sublist of the catalog (hence in original
order), a record belongs to it iff it belongs to the catalog and its
lower-cased title contains the lower-cased keyword, and its length is
the number of matching records, so no matching occurrence is dropped
(this is prior to the pagination cap, which `search_command` applies
only when rendering). -/
theorem spec_C1_search_exact_subsequence (books : List Book) (k : String) :
    (search_results books k).Sublist books
    ∧ (∀ b, b ∈ search_results books k ↔
        b ∈ books ∧ IsSubstr (pyLower k.data) (pyLower b.title.data))
    ∧ (search_results books k).length
        = books.countP (titleMatches (pyLower k.data)) := by
  refine ⟨List.filter_sublist books, fun b => ?_, (List.countP_eq_length_filter ..).symm⟩
  simp [search_results, List.mem_filter, titleMatches, strContains_iff]

theorem bucketOf_eq_none_iff (b : Book) : bucketOf b = none ↔ b.title = "" := by
  obtain ⟨t, l⟩ := b
  obtain ⟨d⟩ := t
  cases d with
  | nil => simp [bucketOf, bucketOfTitle]
  | cons c cs =>
    simp [bucketOf, bucketOfTitle, String.ext_iff]

theorem bucketOf_eq_hash (b : Book) (c : Char) (hc : b.title.data.head? = some c)
    (ha : (c.toUpper).isAlpha = false) : bucketOf b = some '#' := by
  unfold bucketOf bucketOfTitle
  cases hd : b.title.data with
  | nil => simp [hd] at hc
  | cons x xs =>
    simp only [hd, List.head?_cons, Option.some.injEq] at hc
    subst hc
    simp [ha]

theorem letterCountsAux_total (books : List Book) :
    ∀ acc, (∀ b ∈ books, b.title ≠ "") → ∃ m, letterCountsAux acc books = some m := by
  induction books with
  | nil => exact fun acc _ => ⟨acc, rfl⟩
  | cons b rest ih =>
    intro acc h
    obtain ⟨c, hc⟩ : ∃ c, bucketOf b = some c := by
      rcases hb : bucketOf b with _ | c
      · exact absurd ((bucketOf_eq_none_iff b).mp hb) (h b (by simp))
      · exact ⟨c, rfl⟩
    have := ih (incKey acc c) (fun x hx => h x (by simp [hx]))
    simpa [letterCountsAux, hc] using this

theorem groupByLetter_total (books : List Book) :
    ∀ acc, (∀ b ∈ books, b.title ≠ "") → ∃ gs, groupByLetter acc books = some gs := by
  induction books with
  | nil => exact fun acc _ => ⟨acc, rfl⟩
  | cons b rest ih =>
    intro acc h
    obtain ⟨c, hc⟩ : ∃ c, bucketOf b = some c := by
      rcases hb : bucketOf b with _ | c
      · exact absurd ((bucketOf_eq_none_iff b).mp hb) (h b (by simp))
      · exact ⟨c, rfl⟩
    have := ih (addBookToGroups acc c b) (fun x hx => h x (by simp [hx]))
    simpa [groupByLetter, hc] using this

theorem groupByLetter_eq_none (books : List Book) :
    ∀ acc, (∃ b ∈ books, b.title = "") → groupByLetter acc books = none := by
  induction books with
  | nil => rintro acc ⟨b, hb, _⟩; simp at hb
  | cons b rest ih =>
    rintro acc ⟨x, hx, hxe⟩
    rcases List.mem_cons.mp hx with rfl | hx'
    · have : bucketOf x = none := (bucketOf_eq_none_iff x).mpr hxe
      simp [groupByLetter, this]
    · rcases hb : bucketOf b with _ | c
      · simp [groupByLetter, hb]
      · simpa [groupByLetter, hb] using ih (addBookToGroups acc c b) ⟨x, hx', hxe⟩

/-- C2 counterexample. The bucket computation is not total: on a record
with an empty title, `title[0]` raises `IndexError` (modelled as `none`),
so both the stats histogram and the publisher grouping abort with a
runtime error instead of placing the record in the `'#'` bucket. -/
theorem spec_C2_counterexample :
    letter_counts [⟨"", "u"⟩] = none ∧ groupByLetter [] [⟨"", "u"⟩] = none :=
  ⟨by decide, by decide⟩

/-- C2 (amended). For records whose title is non-empty the bucket
computation is total in the bucket-using operations: the stats histogram
and the publisher grouping both succeed on any catalog of non-empty
titles, and a record whose first title character is not alphabetic
(digits, symbols) is placed in the sentinel bucket `'#'`.  A record with
an empty title, however, makes the bucket computation raise (see the
counterexample), rather than landing in `'#'`. -/
theorem spec_C2_bucket_total_on_nonempty_titles (books : List Book)
    (h : ∀ b ∈ books, b.title ≠ "") :
    (∃ m, letter_counts books = some m)
    ∧ (∃ gs, groupByLetter [] books = some gs)
    ∧ (∀ b ∈ books, ∀ c, b.title.data.head? = some c →
        (c.toUpper).isAlpha = false → bucketOf b = some '#') :=
  ⟨letterCountsAux_total books [] h, groupByLetter_total books [] h,
    fun b _ c hc ha => bucketOf_eq_hash b c hc ha⟩

/-- C2 witness: a concrete one-record catalog with the non-empty,
non-alphabetic title `7 Days` is counted without error and lands in
bucket `'#'`. -/
theorem spec_C2_witness :
    (∃ m, letter_counts [⟨"7 Days", "u"⟩] = some m)
    ∧ bucketOf ⟨"7 Days", "u"⟩ = some '#' := by
  have h := spec_C2_bucket_total_on_nonempty_titles [⟨"7 Days", "u"⟩] (by decide)
  exact ⟨h.1, h.2.2 ⟨"7 Days", "u"⟩ (by simp) '7' (by decide) (by decide)⟩

/-- C3 counterexample. On a catalog with one `'#'`-bucket record and one
`'A'`-bucket record, `stats_command` line 394 (`sorted(letter_counts.keys())`)
presents the buckets as `['#', 'A']`: the sentinel `'#'` (code point 0x23)
sorts before `'A'`, not after the alphabetic buckets as the claim states. -/
theorem spec_C3_counterexample :
    statsKeys [⟨"7 Days", "u3"⟩, ⟨"apple pie", "u2"⟩] = some ['#', 'A']
    ∧ (['#', 'A'] : List Char) ≠ ['A', '#'] :=
  ⟨by decide, by decide⟩

/-- C3 (amended). `stats()` presents its bucket-to-count mapping in
ascending code-point order of the bucket keys — deterministic, and a
permutation of the histogram's keys — which places `'#'` before the
alphabetic buckets (code point 0x23 precedes `'A'`), not after them. -/
theorem spec_C3_stats_keys_sorted_codepoint (books : List Book) (m : List (Char × Nat))
    (h : letter_counts books = some m) :
    ∃ ks, statsKeys books = some ks
      ∧ List.Sorted (· ≤ ·) ks
      ∧ List.Perm ks (m.map Prod.fst) :=
  ⟨pySorted (m.map Prod.fst), by simp [statsKeys, h],
    List.sorted_insertionSort _ _, List.perm_insertionSort _ _⟩

/-- C3 witness: concrete evaluation of the amended ordering statement on a
one-record catalog. -/
theorem spec_C3_witness :
    ∃ ks, statsKeys [⟨"apple pie", "u2"⟩] = some ks
      ∧ List.Sorted (· ≤ ·) ks
      ∧ List.Perm ks ([('A', 1)].map Prod.fst) :=
  spec_C3_stats_keys_sorted_codepoint [⟨"apple pie", "u2"⟩] [('A', 1)] (by decide)

theorem publishLoopAux_attempts (publish : Char → Option String)
    (groups : List (Char × List Book)) (n : Nat) :
    ∀ (cs : List Char) (i : Nat) (st : LoopState),
      (publishLoopAux publish groups n i cs st).attempts = st.attempts ++ cs := by
  intro cs
  induction cs with
  | nil => intro i st; simp [publishLoopAux]
  | cons c rest ih =>
    intro i st
    simp only [publishLoopAux]
    cases hp : publish c with
    | none => simp [ih, List.append_assoc]
    | some path =>
      by_cases hi : i < n - 1 <;> simp [hi, ih, List.append_assoc]

theorem publishLoopAux_link_keys (publish : Char → Option String)
    (groups : List (Char × List Book)) (n : Nat) :
    ∀ (cs : List Char) (i : Nat) (st : LoopState),
      ((publishLoopAux publish groups n i cs st).links).map Prod.fst
        = st.links.map Prod.fst ++ cs.filter (fun c => (publish c).isSome) := by
  intro cs
  induction cs with
  | nil => intro i st; simp [publishLoopAux]
  | cons c rest ih =>
    intro i st
    simp only [publishLoopAux]
    cases hp : publish c with
    | none => simp [hp, ih, List.append_assoc]
    | some path =>
      by_cases hi : i < n - 1 <;> simp [hp, hi, ih, List.append_assoc]

theorem publishLoopAux_delays (publish : Char → Option String)
    (groups : List (Char × List Book)) (n : Nat) :
    ∀ (cs : List Char) (i : Nat) (st : LoopState),
      (publishLoopAux publish groups n i cs st).delays
        = st.delays + countDelays publish n i cs := by
  intro cs
  induction cs with
  | nil => intro i st; simp [publishLoopAux, countDelays]
  | cons c rest ih =>
    intro i st
    simp only [publishLoopAux, countDelays]
    cases hp : publish c with
    | none => simp [hp, ih]
    | some path =>
      by_cases hi : i < n - 1 <;> simp [hp, hi, ih] <;> omega

theorem countDelays_all_success (publish : Char → Option String) (n : Nat) :
    ∀ (cs : List Char) (i : Nat), (∀ c ∈ cs, (publish c).isSome) →
      i + cs.length = n → countDelays publish n i cs = cs.length - 1 := by
  intro cs
  induction cs with
  | nil => intro i _ _; simp [countDelays]
  | cons c rest ih =>
    intro i h hn
    have hc : (publish c).isSome := h c (by simp)
    cases rest with
    | nil =>
      have hi : ¬ i < n - 1 := by simp at hn; omega
      simp [countDelays, hi]
    | cons d rest' =>
      have hi : i < n - 1 := by simp at hn ⊢; omega
      have := ih (i + 1) (fun x hx => h x (by simp [List.mem_cons.mp hx])) (by simp at hn ⊢; omega)
      simp only [countDelays, hc, hi, and_self, if_true] at *
      simp only [List.length_cons] at *
      omega

theorem countDelays_of_last (publish : Char → Option String) (n : Nat) :
    ∀ (cs : List Char) (i : Nat), n - 1 ≤ i → countDelays publish n i cs = 0 := by
  intro cs
  induction cs with
  | nil => intro i _; simp [countDelays]
  | cons c rest ih =>
    intro i hi
    have h1 : ¬ i < n - 1 := by omega
    have h2 := ih (i + 1) (by omega)
    simp [countDelays, h1, h2]

/-- C4 counterexample. On a two-bucket catalog where the first publish
attempt fails and the second succeeds, the build issues 2 attempts but 0
inter-attempt delays — not the N−1 = 1 the claim requires regardless of
failures: the sleep sits inside the `try` block (line 105), so a failed
attempt skips it. -/
theorem spec_C4_counterexample :
    (generate_telegraph_pages (fun c => if c = 'A' then none else some "pB")
        [⟨"Apple", "uA"⟩, ⟨"Berry", "uB"⟩]).2.attempts.length = 2
    ∧ (generate_telegraph_pages (fun c => if c = 'A' then none else some "pB")
        [⟨"Apple", "uA"⟩, ⟨"Berry", "uB"⟩]).2.delays = 0
    ∧ (0 : Nat) ≠ 2 - 1 :=
  ⟨by decide, by decide, by decide⟩

/-- C4 (amended). For a catalog whose grouping yields letter list `ls`
(N = `ls.length` non-empty buckets), the build issues exactly N publish
attempts (one per bucket, in order, regardless of failures), never delays
after the last attempt, and executes one delay after exactly each
successful publish attempt other than the last (`countDelays`); hence
exactly N−1 delays when every publish attempt succeeds, and 0 delays
when N ≤ 1. -/
theorem spec_C4_publish_attempts_delays (publish : Char → Option String)
    (books : List Book) (groups : List (Char × List Book))
    (h : groupByLetter [] books = some groups) :
    (generate_telegraph_pages publish books).2.attempts
        = sortedLettersOf (groups.map Prod.fst)
    ∧ (generate_telegraph_pages publish books).2.delays
        = countDelays publish (sortedLettersOf (groups.map Prod.fst)).length 0
            (sortedLettersOf (groups.map Prod.fst))
    ∧ ((∀ c ∈ sortedLettersOf (groups.map Prod.fst), (publish c).isSome) →
        (generate_telegraph_pages publish books).2.delays
          = (sortedLettersOf (groups.map Prod.fst)).length - 1)
    ∧ ((sortedLettersOf (groups.map Prod.fst)).length ≤ 1 →
        (generate_telegraph_pages publish books).2.delays = 0) := by
  simp only [generate_telegraph_pages, h]
  refine ⟨by simpa using publishLoopAux_attempts publish groups _ _ 0 ⟨[], [], 0⟩,
    by simpa using publishLoopAux_delays publish groups _ _ 0 ⟨[], [], 0⟩, ?_, ?_⟩
  · intro hall
    have hd := publishLoopAux_delays publish groups
      (sortedLettersOf (groups.map Prod.fst)).length (sortedLettersOf (groups.map Prod.fst))
      0 ⟨[], [], 0⟩
    have hc := countDelays_all_success publish (sortedLettersOf (groups.map Prod.fst)).length
      (sortedLettersOf (groups.map Prod.fst)) 0 hall (by omega)
    simpa [hc] using hd
  · intro hle
    have hd := publishLoopAux_delays publish groups
      (sortedLettersOf (groups.map Prod.fst)).length (sortedLettersOf (groups.map Prod.fst))
      0 ⟨[], [], 0⟩
    have hc := countDelays_of_last publish (sortedLettersOf (groups.map Prod.fst)).length
      (sortedLettersOf (groups.map Prod.fst)) 0 (by omega)
    simpa [hc] using hd

/-- C4 witness: on a concrete two-bucket catalog where every publish
succeeds, the build executes exactly N−1 = 1 delay. -/
theorem spec_C4_witness :
    (generate_telegraph_pages (fun _ => some "p")
        [⟨"Apple", "uA"⟩, ⟨"Berry", "uB"⟩]).2.delays
      = (sortedLettersOf (([('A', [⟨"Apple", "uA"⟩]), ('B', [⟨"Berry", "uB"⟩])] :
          List (Char × List Book)).map Prod.fst)).length - 1 :=
  (spec_C4_publish_attempts_delays (fun _ => some "p") [⟨"Apple", "uA"⟩, ⟨"Berry", "uB"⟩]
    [('A', [⟨"Apple", "uA"⟩]), ('B', [⟨"Berry", "uB"⟩])] (by decide)).2.2.1 (by decide)

/-- C5. A failed publish for one bucket is non-fatal: every letter still
receives its publish attempt (the attempt list is the whole sorted letter
list, whatever the publish outcomes), the recorded index keys are exactly
the letters whose publish succeeded — so a failed bucket's key is left
absent — and a failure at one bucket never removes a later bucket from
the attempt list. -/
theorem spec_C5_publish_failure_nonfatal (publish : Char → Option String)
    (books : List Book) (groups : List (Char × List Book))
    (h : groupByLetter [] books = some groups) :
    (generate_telegraph_pages publish books).2.attempts
        = sortedLettersOf (groups.map Prod.fst)
    ∧ ((generate_telegraph_pages publish books).2.links).map Prod.fst
        = (sortedLettersOf (groups.map Prod.fst)).filter (fun c => (publish c).isSome)
    ∧ (∀ c ∈ sortedLettersOf (groups.map Prod.fst), publish c = none →
        c ∉ ((generate_telegraph_pages publish books).2.links).map Prod.fst) := by
  simp only [generate_telegraph_pages, h]
  refine ⟨by simpa using publishLoopAux_attempts publish groups _ _ 0 ⟨[], [], 0⟩,
    by simpa using publishLoopAux_link_keys publish groups _ _ 0 ⟨[], [], 0⟩, ?_⟩
  intro c _ hnone hmem
  have hk := publishLoopAux_link_keys publish groups
    (sortedLettersOf (groups.map Prod.fst)).length (sortedLettersOf (groups.map Prod.fst))
    0 ⟨[], [], 0⟩
  rw [hk] at hmem
  simp only [List.map_nil, List.nil_append, List.mem_filter] at hmem
  have hsome := hmem.2
  rw [hnone] at hsome
  simp at hsome

/-- C5 witness: with the publish call failing on bucket `'A'` and
succeeding on bucket `'B'`, both buckets are attempted and only `'B'`
is recorded in the index. -/
theorem spec_C5_witness :
    (generate_telegraph_pages (fun c => if c = 'A' then none else some "pB")
        [⟨"Apple", "uA"⟩, ⟨"Berry", "uB"⟩]).2.attempts
      = sortedLettersOf (([('A', [⟨"Apple", "uA"⟩]), ('B', [⟨"Berry", "uB"⟩])] :
          List (Char × List Book)).map Prod.fst)
    ∧ ((generate_telegraph_pages (fun c => if c = 'A' then none else some "pB")
        [⟨"Apple", "uA"⟩, ⟨"Berry", "uB"⟩]).2.links).map Prod.fst
      = (sortedLettersOf (([('A', [⟨"Apple", "uA"⟩]), ('B', [⟨"Berry", "uB"⟩])] :
          List (Char × List Book)).map Prod.fst)).filter
          (fun c => ((fun c => if c = 'A' then none else some "pB") c).isSome) :=
  ⟨(spec_C5_publish_failure_nonfatal (fun c => if c = 'A' then none else some "pB")
      [⟨"Apple", "uA"⟩, ⟨"Berry", "uB"⟩]
      [('A', [⟨"Apple", "uA"⟩]), ('B', [⟨"Berry", "uB"⟩])] (by decide)).1,
   (spec_C5_publish_failure_nonfatal (fun c => if c = 'A' then none else some "pB")
      [⟨"Apple", "uA"⟩, ⟨"Berry", "uB"⟩]
      [('A', [⟨"Apple", "uA"⟩]), ('B', [⟨"Berry", "uB"⟩])] (by decide)).2.1⟩

/-- C10. The build step returns `True` exactly when the grouping phase
completes: if every title is non-empty the grouping completes and the
build reports success whatever the publish outcomes (even if every
per-bucket publish attempt failed); if some title is empty the exception
escapes the per-bucket handler during grouping, the outer handler
catches it, and the build reports failure. -/
theorem spec_C10_success_iff_grouping_completes (publish : Char → Option String)
    (books : List Book) :
    ((∀ b ∈ books, b.title ≠ "") → (generate_telegraph_pages publish books).1 = true)
    ∧ ((∃ b ∈ books, b.title = "") → (generate_telegraph_pages publish books).1 = false) := by
  constructor
  · intro h
    obtain ⟨gs, hgs⟩ := groupByLetter_total books [] h
    simp [generate_telegraph_pages, hgs]
  · intro h
    have := groupByLetter_eq_none books [] h
    simp [generate_telegraph_pages, this]

/-- C10 witness: the build reports success on a catalog where every
publish attempt fails, and failure on a catalog with an empty title
(which makes the grouping phase raise). -/
theorem spec_C10_witness :
    (generate_telegraph_pages (fun _ => none) [⟨"Apple", "u"⟩]).1 = true
    ∧ (generate_telegraph_pages (fun _ => some "p") [⟨"", "u"⟩]).1 = false :=
  ⟨(spec_C10_success_iff_grouping_completes (fun _ => none) [⟨"Apple", "u"⟩]).1 (by decide),
   (spec_C10_success_iff_grouping_completes (fun _ => some "p") [⟨"", "u"⟩]).2 (by decide)⟩

/-- C6. Pagination of search results with cap 20 (`results[:20]`,
line 269): when at most 20 records match, every match is listed and no
truncation is reported; when more than 20 match, exactly the first 20
matches are listed in order, truncation is reported, and the total match
count reported to the caller (line 272) is the full count, not the
capped one. -/
theorem spec_C6_search_pagination (results : List Book) :
    (results.length ≤ 20 →
      (paginate_search results).items = results
      ∧ (paginate_search results).truncated = false)
    ∧ (results.length > 20 →
      (paginate_search results).items = results.take 20
      ∧ (paginate_search results).items.length = 20
      ∧ (paginate_search results).truncated = true)
    ∧ (paginate_search results).totalMatched = results.length := by
  refine ⟨fun h => ⟨List.take_of_length_le h, ?_⟩, fun h => ⟨rfl, ?_, ?_⟩, rfl⟩
  · simp only [paginate_search, decide_eq_false_iff_not]
    omega
  · simp only [paginate_search, List.length_take]
    omega
  · simp only [paginate_search, decide_eq_true_eq]
    omega

/-- C6 witness: a 1-match result set is rendered whole, a 21-match result
set is truncated. -/
theorem spec_C6_witness :
    (paginate_search [⟨"Apple", "u"⟩]).items = [⟨"Apple", "u"⟩]
    ∧ (paginate_search (List.replicate 21 (⟨"Apple", "u"⟩ : Book))).truncated = true :=
  ⟨((spec_C6_search_pagination [⟨"Apple", "u"⟩]).1 (by decide)).1,
   ((spec_C6_search_pagination (List.replicate 21 ⟨"Apple", "u"⟩)).2.1 (by decide)).2.2⟩

/-- C7. `random()` on a non-empty catalog returns a record that is an
element of the catalog; on an empty catalog it fails (lines 302-304),
returning no sentinel or default record. -/
theorem spec_C7_random_in_catalog (books : List Book) (r : Nat) :
    (books ≠ [] → ∃ b, random_book books r = some b ∧ b ∈ books)
    ∧ (books = [] → random_book books r = none) := by
  constructor
  · intro h
    have hlen : 0 < books.length := List.length_pos.mpr h
    have hlt : r % books.length < books.length := Nat.mod_lt _ hlen
    have hne : books.isEmpty = false := by
      cases books with
      | nil => exact absurd rfl h
      | cons x xs => rfl
    exact ⟨books[r % books.length], by simp [random_book, hne, List.getElem?_eq_getElem hlt],
      List.getElem_mem hlt⟩
  · rintro rfl
    rfl

/-- C7 witness: concrete draws on a one-record catalog and on the empty
catalog. -/
theorem spec_C7_witness :
    (∃ b, random_book [⟨"Apple", "u"⟩] 7 = some b ∧ b ∈ [(⟨"Apple", "u"⟩ : Book)])
    ∧ random_book ([] : List Book) 7 = none :=
  ⟨(spec_C7_random_in_catalog [⟨"Apple", "u"⟩] 7).1 (by decide),
   (spec_C7_random_in_catalog [] 7).2 rfl⟩

/-- C9. A multi-word `/search` joins its argument words with single
spaces into one phrase (line 258) and matches that phrase as one
contiguous substring of the lower-cased title: a record is returned iff
the joined phrase occurs in its title.  In particular a record whose
title contains every word separately but not the joined phrase is not
returned: `Fantasy of Romance` contains both `fantasy` and `romance`
yet `/search fantasy romance` returns nothing. -/
theorem spec_C9_multiword_joined_phrase :
    (∀ (args : List String) (books results : List Book) (b : Book),
        search_command args books = some results →
        (b ∈ results ↔ b ∈ books ∧
          IsSubstr (pyLower (joinWords args).data) (pyLower b.title.data)))
    ∧ search_command ["fantasy", "romance"] [⟨"Fantasy of Romance", "u"⟩] = some []
    ∧ strContains (pyLower "Fantasy of Romance".data) "fantasy".data = true
    ∧ strContains (pyLower "Fantasy of Romance".data) "romance".data = true := by
  refine ⟨?_, by decide, by decide, by decide⟩
  intro args books results b h
  cases ha : args.isEmpty <;> simp only [search_command, ha] at h
  · cases h
    simp [search_results, List.mem_filter, titleMatches, strContains_iff]
  · simp at h

/-- C9 witness: a concrete application of the phrase-matching
characterization, on a search whose single keyword occurs in the title. -/
theorem spec_C9_witness :
    (⟨"Fantasy Tale", "u"⟩ : Book) ∈ [(⟨"Fantasy Tale", "u"⟩ : Book)] ∧
      IsSubstr (pyLower (joinWords ["fantasy"]).data)
        (pyLower (⟨"Fantasy Tale", "u"⟩ : Book).title.data) :=
  (spec_C9_multiword_joined_phrase.1 ["fantasy"] [⟨"Fantasy Tale", "u"⟩]
    [⟨"Fantasy Tale", "u"⟩] ⟨"Fantasy Tale", "u"⟩ (by decide)).mp (by simp)

theorem lookup_isSome_of_mem_keys (links : List (Char × PageEntry)) :
    ∀ c ∈ links.map Prod.fst, ∃ e, links.lookup c = some e := by
  induction links with
  | nil => simp
  | cons kv rest ih =>
    obtain ⟨k, v⟩ := kv
    intro c hc
    by_cases hk : c = k
    · subst hk
      exact ⟨v, by simp [List.lookup]⟩
    · rcases List.mem_cons.mp hc with h1 | h2
      · exact absurd h1 hk
      · obtain ⟨e, he⟩ := ih c h2
        exact ⟨e, by simp [List.lookup, beq_false_of_ne hk, he]⟩

theorem mem_sortedLettersOf (keys : List Char) (c : Char) (h : c ∈ sortedLettersOf keys) :
    c ∈ keys := by
  unfold sortedLettersOf at h
  rcases List.mem_append.mp h with h1 | h2
  · have hm := (List.perm_insertionSort _ _).mem_iff.mp h1
    exact (List.mem_filter.mp hm).1
  · revert h2
    split
    · intro h2
      rcases List.mem_singleton.mp h2 with rfl
      assumption
    · intro h2
      simp at h2

theorem keys_filterMap_lookup (links : List (Char × PageEntry)) :
    ∀ letters : List Char, (∀ c ∈ letters, c ∈ links.map Prod.fst) →
      ((letters.filterMap (fun c => (links.lookup c).map (fun e => (c, e)))).map Prod.fst)
        = letters := by
  intro letters
  induction letters with
  | nil => intro _; simp
  | cons d rest ih =>
    intro h
    obtain ⟨e, he⟩ := lookup_isSome_of_mem_keys links d (h d (by simp))
    simp [List.filterMap_cons, he, ih (fun x hx => h x (by simp [hx]))]

theorem mem_filterMap_lookup (links : List (Char × PageEntry)) (letters : List Char)
    (c : Char) (e : PageEntry)
    (h : (c, e) ∈ letters.filterMap (fun c => (links.lookup c).map (fun e => (c, e)))) :
    links.lookup c = some e := by
  rw [List.mem_filterMap] at h
  obtain ⟨a, _, ha⟩ := h
  rw [Option.map_eq_some'] at ha
  obtain ⟨f, hf, hfe⟩ := ha
  simp only [Prod.mk.injEq] at hfe
  obtain ⟨rfl, rfl⟩ := hfe
  exact hf

theorem nodup_filter_hash (keys : List Char) (h : keys.Nodup) :
    keys.filter (fun c => c = '#') = if '#' ∈ keys then ['#'] else [] := by
  induction keys with
  | nil => simp
  | cons k rest ih =>
    obtain ⟨hk, hrest⟩ := List.nodup_cons.mp h
    by_cases hkh : k = '#'
    · subst hkh
      have hempty : rest.filter (fun c => c = '#') = [] :=
        List.filter_eq_nil_iff.mpr (fun a ha => by
          simp only [decide_eq_true_eq]
          rintro rfl
          exact hk ha)
      simp [List.filter_cons, hempty]
    · have hmem : ('#' ∈ k :: rest) ↔ ('#' ∈ rest) := by
        constructor
        · intro hc
          rcases List.mem_cons.mp hc with h1 | h2
          · exact absurd h1.symm hkh
          · exact h2
        · exact fun hc => List.mem_cons_of_mem _ hc
      simp [List.filter_cons, hkh, ih hrest, hmem]

theorem sortedLettersOf_perm (keys : List Char) (h : keys.Nodup) :
    List.Perm (sortedLettersOf keys) keys := by
  unfold sortedLettersOf
  have h1 : List.Perm (pySorted (keys.filter (fun c => c ≠ '#')))
      (keys.filter (fun c => c ≠ '#')) := List.perm_insertionSort _ _
  have h2 : (if '#' ∈ keys then ['#'] else []) = keys.filter (fun c => c = '#') :=
    (nodup_filter_hash keys h).symm
  have h3 : keys.filter (fun c => !decide (c ≠ '#')) = keys.filter (fun c => c = '#') := by
    apply List.filter_congr
    intro c _
    simp [decide_not]
  refine (h1.append (by rw [h2])).trans ?_
  rw [← h3]
  exact List.filter_append_perm _ keys

theorem sortedLettersOf_pairwise (keys : List Char) :
    List.Pairwise bucketLe (sortedLettersOf keys) := by
  unfold sortedLettersOf
  rw [List.pairwise_append]
  have hmem : ∀ a ∈ pySorted (keys.filter (fun c => c ≠ '#')), a ≠ '#' := by
    intro a ha
    have hm := (List.perm_insertionSort _ _).mem_iff.mp ha
    have := (List.mem_filter.mp hm).2
    simpa using this
  refine ⟨?_, ?_, ?_⟩
  · have hs : List.Pairwise (· ≤ ·) (pySorted (keys.filter (fun c => c ≠ '#'))) :=
      List.sorted_insertionSort _ _
    exact List.Pairwise.imp_of_mem (fun ha hb hab => Or.inr ⟨hmem _ ha, hab⟩) hs
  · split
    · simp
    · simp
  · intro a _ b hb
    have hbh : b = '#' := by
      revert hb
      split
      · intro hb
        exact List.mem_singleton.mp hb
      · intro hb
        simp at hb
    exact Or.inl hbh

/-- C8. The catalog-links lookup returns the not-ready notice exactly when
the published-page index is empty; when the index is non-empty it returns
one entry per bucket key carrying that bucket's recorded `{url, count}`
value, the keys being a permutation of the index keys presented with all
non-`'#'` letters in ascending order and `'#'` last (`bucketLe`). -/
theorem spec_C8_catalog_links (links : List (Char × PageEntry)) :
    (catalog_command links = CatalogResult.notReady ↔ links = [])
    ∧ ((links.map Prod.fst).Nodup →
        ∀ es, catalog_command links = CatalogResult.keyboard es →
          List.Perm (es.map Prod.fst) (links.map Prod.fst)
          ∧ List.Pairwise bucketLe (es.map Prod.fst)
          ∧ (∀ c e, (c, e) ∈ es → links.lookup c = some e)) := by
  constructor
  · cases links with
    | nil => simp [catalog_command]
    | cons kv rest => simp [catalog_command]
  · intro hnodup es hes
    have hne : links.isEmpty = false := by
      cases links with
      | nil => simp [catalog_command] at hes
      | cons kv rest => rfl
    simp only [catalog_command, hne, Bool.false_eq_true, if_false,
      CatalogResult.keyboard.injEq] at hes
    subst hes
    have hkeys := keys_filterMap_lookup links (sortedLettersOf (links.map Prod.fst))
      (fun c hc => mem_sortedLettersOf _ c hc)
    refine ⟨?_, ?_, ?_⟩
    · rw [hkeys]
      exact sortedLettersOf_perm _ hnodup
    · rw [hkeys]
      exact sortedLettersOf_pairwise _
    · intro c e hce
      exact mem_filterMap_lookup links _ c e hce

/-- C8 witness: a concrete three-entry index (`'B'`, `'#'`, `'A'` in
insertion order) is presented as `'A'`, `'B'`, `'#'` with the recorded
entries, and a concrete empty index yields the not-ready notice. -/
theorem spec_C8_witness :
    (catalog_command [] = CatalogResult.notReady ↔ ([] : List (Char × PageEntry)) = [])
    ∧ List.Pairwise bucketLe
        ((([('A', ⟨"w", 3⟩), ('B', ⟨"u", 2⟩), ('#', ⟨"v", 1⟩)] :
          List (Char × PageEntry))).map Prod.fst) := by
  constructor
  · exact (spec_C8_catalog_links []).1
  · have h := ((spec_C8_catalog_links
      [('B', ⟨"u", 2⟩), ('#', ⟨"v", 1⟩), ('A', ⟨"w", 3⟩)]).2 (by decide)
      [('A', ⟨"w", 3⟩), ('B', ⟨"u", 2⟩), ('#', ⟨"v", 1⟩)] (by decide)).2.1
    exact h
